import Mathlib

/-!
Verification of the bundle encoder in `src/main.py` (`create_bundle` and its
frame-packing / audio-chunking loop).  The encoder is modelled as a pure
function from the frame pixel buffers, the audio byte buffer and the numeric
parameters to the pair (success flag, bytes written to the output file).
Machine integers are modelled as `Nat`; the `struct.pack` calls, which raise
`struct.error` on out-of-range values (caught by the surrounding
`try/except`, which returns `False`), are modelled as `Option (List Nat)`.
Bytes already handed to `bundle.write` before such a failure are flushed when
the `with` block closes the file, so they are part of the output on failure.
-/

namespace FlipEnt

/-- The 7 signature bytes of `b'BND!VID'` (line 113 of `src/main.py`). -/
def signature : List Nat := [66, 78, 68, 33, 86, 73, 68]

/-- Model of `struct.pack('<B', v)`: one byte, fails for `v ≥ 256`. -/
def packB (v : Nat) : Option (List Nat) :=
  if v < 256 then some [v] else none

/-- Model of `struct.pack('<H', v)`: two little-endian bytes, fails for `v ≥ 2^16`. -/
def packH (v : Nat) : Option (List Nat) :=
  if v < 65536 then some [v % 256, v / 256] else none

/-- Model of `struct.pack('<I', v)`: four little-endian bytes, fails for `v ≥ 2^32`. -/
def packI (v : Nat) : Option (List Nat) :=
  if v < 4294967296 then
    some [v % 256, v / 256 % 256, v / 65536 % 256, v / 16777216]
  else none

/-- A sequence of `bundle.write` calls whose arguments may fail to pack:
writes succeed in order until the first failing `pack`, which aborts the
sequence; the bytes written before the failure are kept (they are flushed
when the file is closed). Returns (success, bytes written). -/
def writeSeq : List (Option (List Nat)) → Bool × List Nat
  | [] => (true, [])
  | none :: _ => (false, [])
  | some bs :: rest =>
    let r := writeSeq rest
    (r.1, bs ++ r.2)

/-- Line 102 of `src/main.py`: `audio_chunk_size = sample_rate // fps`
(Python floor division on nonnegative ints = `Nat` division). -/
def audio_chunk_size (sample_rate fps : Nat) : Nat := sample_rate / fps

/-- Lines 142–145 of `src/main.py`: one output byte for the group of eight
pixels starting at `j`; bit `k` is set when pixel `j + k` exists and is 0. -/
def packByte (pixels : List Nat) (j : Nat) : Nat :=
  (List.range 8).foldl
    (fun b k =>
      if j + k < pixels.length ∧ pixels.getD (j + k) 255 = 0 then
        b ||| (1 <<< k)
      else b)
    0

/-- Lines 140–146 of `src/main.py`: the frame packer.  The loop
`for j in range(0, height * width, 8)` appends one byte per group, so the
group starts are `8 * m` for `m < ⌈height * width / 8⌉`. -/
def packFrame (pixels : List Nat) (w h : Nat) : List Nat :=
  (List.range ((h * w + 7) / 8)).map (fun m => packByte pixels (8 * m))

/-- Lines 151–156 of `src/main.py`, audio part of the per-frame loop only:
the chunk written for each frame is `audio_data[audio_pos:chunk_end]` with
`chunk_end = min(audio_pos + audio_chunk_size, len(audio_data))`, and the
cursor advances to `chunk_end`.  Returns the concatenation of all chunks. -/
def audioWritten : List (List Nat) → List Nat → Nat → Nat → List Nat
  | [], _, _, _ => []
  | _ :: rest, audio, pos, chunk =>
    let e := min (pos + chunk) audio.length
    (audio.drop pos).take (e - pos) ++ audioWritten rest audio e chunk

/-- Lines 132–156 of `src/main.py`: the per-frame loop.  For each frame the
packed frame bytes are written, then the next audio chunk, advancing the
audio cursor. -/
def frameChunks : List (List Nat) → List Nat → Nat → Nat → Nat → Nat → List Nat
  | [], _, _, _, _, _ => []
  | f :: rest, audio, pos, chunk, w, h =>
    let e := min (pos + chunk) audio.length
    packFrame f w h ++ (audio.drop pos).take (e - pos) ++
      frameChunks rest audio e chunk w h

/-- Result of one `create_bundle` call: the boolean return value and the
bytes present in the output file afterwards. -/
structure BundleResult where
  success : Bool
  out : List Nat
deriving DecidableEq, Repr

/-- Lines 96–161 of `src/main.py` (`create_bundle`), with the frame images
abstracted to their pixel-buffer lists and the audio file to its byte list.
`fps = 0` raises `ZeroDivisionError` at line 102, before the output file is
opened, so nothing is written; a `struct.error` in the header aborts with the
previously written bytes flushed; the per-frame loop cannot fail. -/
def create_bundle (frames : List (List Nat)) (audio : List Nat)
    (width height fps sample_rate : Nat) : BundleResult :=
  if fps = 0 then ⟨false, []⟩
  else
    let chunk := audio_chunk_size sample_rate fps
    let hdr := writeSeq [some signature, packB 1, packI frames.length,
      packH chunk, packH sample_rate, packB height, packB width]
    ⟨hdr.1,
      hdr.2 ++
        if hdr.1 then frameChunks frames audio 0 chunk width height else []⟩

/-- Inverse of the §4.1 packing rule, as the round-trip property states it:
pixel `8 * m + k` of the `w * h`-pixel buffer is dark (0) exactly when bit
`k` of packed byte `m` is 1, and light (255) otherwise. -/
def unpackFrame (bs : List Nat) (w h : Nat) : List Nat :=
  (List.range (w * h)).map
    (fun i => if Nat.testBit (bs.getD (i / 8) 0) (i % 8) then 0 else 255)

section Lemmas

/-- Bits of an or-accumulating fold over `List.range n`: bit `k` of the
result is set exactly when `k < n` and the condition holds at `k`. -/
theorem testBit_bitFold (c : Nat → Prop) [DecidablePred c] (n k : Nat) :
    Nat.testBit
      ((List.range n).foldl (fun b i => if c i then b ||| (1 <<< i) else b) 0) k
      = (decide (k < n) && decide (c k)) := by
  induction n with
  | zero => simp
  | succ n ih =>
    rw [List.range_succ, List.foldl_append, List.foldl_cons, List.foldl_nil]
    by_cases hc : c n
    · rw [if_pos hc, Nat.testBit_or, ih, Nat.one_shiftLeft, Nat.testBit_two_pow]
      by_cases hk : k = n
      · subst hk; simp [hc]
      · have hiff : k < n ↔ k < n + 1 := by omega
        simp [hk, Ne.symm hk, decide_eq_decide.mpr hiff]
    · rw [if_neg hc, ih]
      by_cases hk : k = n
      · subst hk; simp [hc]
      · have hiff : k < n ↔ k < n + 1 := by omega
        rw [decide_eq_decide.mpr hiff]

/-- Bit `k` of `packByte pixels j` is set exactly when `k < 8`, pixel
`j + k` exists, and it is 0. -/
theorem testBit_packByte (pixels : List Nat) (j k : Nat) :
    Nat.testBit (packByte pixels j) k =
      (decide (k < 8) &&
        decide (j + k < pixels.length ∧ pixels.getD (j + k) 255 = 0)) :=
  testBit_bitFold (fun i => j + i < pixels.length ∧ pixels.getD (j + i) 255 = 0) 8 k

/-- The packed frame has one byte per group of eight pixel positions. -/
theorem packFrame_length (pixels : List Nat) (w h : Nat) :
    (packFrame pixels w h).length = (w * h + 7) / 8 := by
  simp [packFrame, Nat.mul_comm h w]

/-- Byte `m` of the packed frame, for `m` in range. -/
theorem packFrame_getD (pixels : List Nat) (w h m : Nat)
    (hm : m < (h * w + 7) / 8) :
    (packFrame pixels w h).getD m 0 = packByte pixels (8 * m) := by
  rw [packFrame, List.getD_eq_getElem?_getD,
    List.getElem?_eq_getElem (by simpa using hm)]
  simp

/-- Full characterization of every bit of every byte of a packed frame
(bytes out of range read as 0 via `getD`). -/
theorem packFrame_testBit (pixels : List Nat) (w h m k : Nat) :
    Nat.testBit ((packFrame pixels w h).getD m 0) k =
      (decide (m < (w * h + 7) / 8) && decide (k < 8) &&
        decide (8 * m + k < pixels.length) &&
        decide (pixels.getD (8 * m + k) 255 = 0)) := by
  by_cases hm : m < (w * h + 7) / 8
  · have hm' : m < (h * w + 7) / 8 := by rw [Nat.mul_comm h w]; exact hm
    rw [packFrame_getD pixels w h m hm', testBit_packByte, Bool.decide_and]
    simp [hm, Bool.and_assoc]
  · have hlen : (packFrame pixels w h).length ≤ m := by
      rw [packFrame_length]; omega
    rw [List.getD_eq_getElem?_getD, List.getElem?_eq_none hlen]
    simp [hm]

/-- The unpacked buffer has exactly `w * h` pixels. -/
theorem unpackFrame_length (bs : List Nat) (w h : Nat) :
    (unpackFrame bs w h).length = w * h := by
  simp [unpackFrame]

/-- Pixel `i` of the unpacked buffer, for `i` in range. -/
theorem unpackFrame_getD (bs : List Nat) (w h i : Nat) (hi : i < w * h) :
    (unpackFrame bs w h).getD i 255 =
      if Nat.testBit (bs.getD (i / 8) 0) (i % 8) then 0 else 255 := by
  rw [unpackFrame, List.getD_eq_getElem?_getD,
    List.getElem?_eq_getElem (by simpa using hi)]
  simp

/-- Reading a list at an in-range index through `getD`. -/
theorem getD_of_lt (l : List Nat) (d m : Nat) (h : m < l.length) :
    l.getD m d = l.get ⟨m, h⟩ := by
  rw [List.getD_eq_getElem?_getD, List.getElem?_eq_getElem h]
  rfl

/-- A write sequence succeeds exactly when every pack succeeds. -/
theorem writeSeq_success : ∀ l : List (Option (List Nat)),
    (writeSeq l).1 = l.all Option.isSome
  | [] => rfl
  | none :: rest => by simp [writeSeq]
  | some bs :: rest => by simp [writeSeq, writeSeq_success rest]

/-- `packB` succeeds exactly on byte-sized values. -/
theorem isSome_packB (v : Nat) : (packB v).isSome = decide (v < 256) := by
  rw [packB]; split <;> simp [*]

/-- `packH` succeeds exactly on 16-bit values. -/
theorem isSome_packH (v : Nat) : (packH v).isSome = decide (v < 65536) := by
  rw [packH]; split <;> simp [*]

/-- `packI` succeeds exactly on 32-bit values. -/
theorem isSome_packI (v : Nat) : (packI v).isSome = decide (v < 4294967296) := by
  rw [packI]; split <;> simp [*]

/-- `create_bundle` returns `True` exactly when `fps` is nonzero and every
header field fits its `struct` format. -/
theorem create_bundle_success_iff (frames : List (List Nat)) (audio : List Nat)
    (w h fps sr : Nat) :
    (create_bundle frames audio w h fps sr).success = true ↔
      (fps ≠ 0 ∧ frames.length < 4294967296 ∧ sr / fps < 65536 ∧
        sr < 65536 ∧ h < 256 ∧ w < 256) := by
  by_cases hf : fps = 0 <;>
    simp [create_bundle, hf, writeSeq_success, isSome_packB, isSome_packH,
      isSome_packI, audio_chunk_size]

/-- Splitting a `take` at an intermediate point. -/
theorem take_add_split {α : Type} : ∀ (a : Nat) (l : List α) (b : Nat),
    l.take (a + b) = l.take a ++ (l.drop a).take b
  | 0, l, b => by simp
  | a + 1, [], b => by simp
  | a + 1, x :: xs, b => by
    have h : a + 1 + b = (a + b) + 1 := by omega
    rw [h, List.take_succ_cons, take_add_split a xs b, List.take_succ_cons,
      List.drop_succ_cons, List.cons_append]

/-- The concatenation of the audio chunks written by the loop starting at
cursor `pos` is exactly the next `frames.length * chunk` bytes of the audio
buffer (fewer when the buffer runs out). -/
theorem audioWritten_eq : ∀ (frames : List (List Nat)) (audio : List Nat)
    (pos chunk : Nat),
    audioWritten frames audio pos chunk =
      (audio.drop pos).take (frames.length * chunk)
  | [], audio, pos, chunk => by simp [audioWritten]
  | f :: rest, audio, pos, chunk => by
    rw [audioWritten]
    by_cases hle : pos + chunk ≤ audio.length
    · have he : min (pos + chunk) audio.length = pos + chunk := by omega
      rw [he, audioWritten_eq rest audio (pos + chunk) chunk]
      have hsub : pos + chunk - pos = chunk := by omega
      have hlen : rest.length * chunk + chunk = (f :: rest).length * chunk := by
        simp [List.length_cons]; ring
      rw [hsub, ← List.drop_drop, ← take_add_split, Nat.add_comm chunk, hlen]
    · have he : min (pos + chunk) audio.length = audio.length := by omega
      rw [he, audioWritten_eq rest audio audio.length chunk,
        List.drop_eq_nil_of_le (Nat.le_refl _), List.take_nil, List.append_nil]
      have h1 : (audio.drop pos).take (audio.length - pos) = audio.drop pos :=
        List.take_of_length_le (by simp)
      have h2 : (audio.drop pos).take ((f :: rest).length * chunk) =
          audio.drop pos :=
        List.take_of_length_le (by simp [List.length_cons]; nlinarith)
      rw [h1, h2]

/-- Total length of the per-frame loop output: one packed frame plus one
audio chunk per frame. -/
theorem frameChunks_length : ∀ (frames : List (List Nat)) (audio : List Nat)
    (pos chunk w h : Nat),
    (frameChunks frames audio pos chunk w h).length =
      frames.length * ((w * h + 7) / 8) +
        (audioWritten frames audio pos chunk).length
  | [], audio, pos, chunk, w, h => by simp [frameChunks, audioWritten]
  | f :: rest, audio, pos, chunk, w, h => by
    rw [frameChunks, audioWritten]
    simp only [List.length_append, packFrame_length,
      frameChunks_length rest audio _ chunk w h, List.length_cons]
    ring

/-- When every header field fits, `create_bundle` succeeds and its output is
the 18 header bytes followed by the interleaved frame/audio body. -/
theorem create_bundle_eq_of_ranges (frames : List (List Nat)) (audio : List Nat)
    (w h fps sr : Nat) (hf : fps ≠ 0) (hn : frames.length < 4294967296)
    (hc : sr / fps < 65536) (hs : sr < 65536) (hh : h < 256) (hw : w < 256) :
    create_bundle frames audio w h fps sr =
      ⟨true,
        signature ++ [1] ++
          [frames.length % 256, frames.length / 256 % 256,
            frames.length / 65536 % 256, frames.length / 16777216] ++
          [sr / fps % 256, sr / fps / 256] ++ [sr % 256, sr / 256] ++
          [h, w] ++ frameChunks frames audio 0 (sr / fps) w h⟩ := by
  simp [create_bundle, hf, audio_chunk_size, writeSeq, packB, packH, packI,
    hn, hc, hs, hh, hw, signature]

/-- When the derived chunk size overflows 16 bits (and the earlier fields
packed), the encode fails with exactly the first 12 header bytes written. -/
theorem create_bundle_chunk_overflow (frames : List (List Nat))
    (audio : List Nat) (w h fps sr : Nat) (hf : fps ≠ 0)
    (hn : frames.length < 4294967296) (hc : 65535 < sr / fps) :
    create_bundle frames audio w h fps sr =
      ⟨false,
        signature ++ [1] ++
          [frames.length % 256, frames.length / 256 % 256,
            frames.length / 65536 % 256, frames.length / 16777216]⟩ := by
  have hc' : ¬ sr / fps < 65536 := by omega
  simp [create_bundle, hf, audio_chunk_size, writeSeq, packB, packH, packI,
    hn, hc', signature]

/-- When `height` exceeds 255 (and the earlier fields packed), the encode
fails with exactly the first 16 header bytes written. -/
theorem create_bundle_height_overflow (frames : List (List Nat))
    (audio : List Nat) (w h fps sr : Nat) (hf : fps ≠ 0)
    (hn : frames.length < 4294967296) (hc : sr / fps < 65536) (hs : sr < 65536)
    (hh : 255 < h) :
    create_bundle frames audio w h fps sr =
      ⟨false,
        signature ++ [1] ++
          [frames.length % 256, frames.length / 256 % 256,
            frames.length / 65536 % 256, frames.length / 16777216] ++
          [sr / fps % 256, sr / fps / 256] ++ [sr % 256, sr / 256]⟩ := by
  have hh' : ¬ h < 256 := by omega
  simp [create_bundle, hf, audio_chunk_size, writeSeq, packB, packH, packI,
    hn, hc, hs, hh', signature]

/-- When `width` exceeds 255 but `height` fits (and the earlier fields
packed), the encode fails with exactly the first 17 header bytes written. -/
theorem create_bundle_width_overflow (frames : List (List Nat))
    (audio : List Nat) (w h fps sr : Nat) (hf : fps ≠ 0)
    (hn : frames.length < 4294967296) (hc : sr / fps < 65536) (hs : sr < 65536)
    (hh : h < 256) (hw : 255 < w) :
    create_bundle frames audio w h fps sr =
      ⟨false,
        signature ++ [1] ++
          [frames.length % 256, frames.length / 256 % 256,
            frames.length / 65536 % 256, frames.length / 16777216] ++
          [sr / fps % 256, sr / fps / 256] ++ [sr % 256, sr / 256] ++ [h]⟩ := by
  have hw' : ¬ w < 256 := by omega
  simp [create_bundle, hf, audio_chunk_size, writeSeq, packB, packH, packI,
    hn, hc, hs, hh, hw', signature]

end Lemmas

section Claims

/-- Claim C1, counterexample: the code computes the chunk size with floor
division, so for `sample_rate = 44100`, `fps = 24` the value computed and
stored little-endian at header bytes 12–13 is 1837 = ⌊44100 / 24⌋, not
`round(44100 / 24) = 1838` as the claim states. -/
theorem c1_chunk_size_cex :
    audio_chunk_size 44100 24 = 1837 ∧ audio_chunk_size 44100 24 ≠ 1838 ∧
      (create_bundle [] [] 128 64 24 44100).out.getD 12 0 +
        256 * (create_bundle [] [] 128 64 24 44100).out.getD 13 0 = 1837 := by
  decide

/-- Claim C1, amended: for every encode the audio chunk size written to the
header and used to slice the audio equals the floor `sample_rate / fps`:
bytes 12–13 of the output are its little-endian encoding and the body after
the 18-byte header is the frame/audio interleaving driven by that same
chunk size. -/
theorem c1_chunk_size_floor (frames : List (List Nat)) (audio : List Nat)
    (w h fps sr : Nat) (hf : fps ≠ 0) (hn : frames.length < 4294967296)
    (hc : sr / fps < 65536) (hs : sr < 65536) (hh : h < 256) (hw : w < 256) :
    audio_chunk_size sr fps = sr / fps ∧
    ((create_bundle frames audio w h fps sr).out.drop 12).take 2 =
      [sr / fps % 256, sr / fps / 256] ∧
    (create_bundle frames audio w h fps sr).out.drop 18 =
      frameChunks frames audio 0 (sr / fps) w h := by
  rw [create_bundle_eq_of_ranges frames audio w h fps sr hf hn hc hs hh hw]
  refine ⟨rfl, ?_, ?_⟩ <;> simp [signature]

/-- Claim C1, witness for the amended theorem at `sample_rate = 44100`,
`fps = 24`. -/
theorem c1_chunk_size_floor_witness :
    audio_chunk_size 44100 24 = 44100 / 24 ∧
    ((create_bundle [] [] 2 2 24 44100).out.drop 12).take 2 =
      [44100 / 24 % 256, 44100 / 24 / 256] ∧
    (create_bundle [] [] 2 2 24 44100).out.drop 18 =
      frameChunks [] [] 0 (44100 / 24) 2 2 :=
  c1_chunk_size_floor [] [] 2 2 24 44100 (by decide) (by decide) (by decide)
    (by decide) (by decide) (by decide)

/-- Claim C2, counterexample: the header written by the code is 18 bytes,
not 17 — signature (7) + version (1) + frame count (4) + chunk size (2) +
sample rate (2) + height (1) + width (1) = 18, as the empty encode shows. -/
theorem c2_header_cex :
    (create_bundle [] [] 128 64 24 44100).out =
      [66, 78, 68, 33, 86, 73, 68, 1, 0, 0, 0, 0, 45, 7, 68, 172, 64, 128] ∧
    (create_bundle [] [] 128 64 24 44100).out.length ≠ 17 := by
  decide

/-- Claim C2, amended: every successful encode begins with a header of
exactly 18 bytes laid out in order: the 7-byte signature `BND!VID`, version
1 as unsigned 8-bit, frame count as unsigned 32-bit little-endian, chunk
size as unsigned 16-bit little-endian, sample rate as unsigned 16-bit
little-endian, height as unsigned 8-bit, width as unsigned 8-bit. -/
theorem c2_header_layout (frames : List (List Nat)) (audio : List Nat)
    (w h fps sr : Nat) (hf : fps ≠ 0) (hn : frames.length < 4294967296)
    (hc : sr / fps < 65536) (hs : sr < 65536) (hh : h < 256) (hw : w < 256) :
    (create_bundle frames audio w h fps sr).success = true ∧
    (create_bundle frames audio w h fps sr).out.take 18 =
      signature ++ [1] ++
        [frames.length % 256, frames.length / 256 % 256,
          frames.length / 65536 % 256, frames.length / 16777216] ++
        [sr / fps % 256, sr / fps / 256] ++ [sr % 256, sr / 256] ++ [h, w] := by
  rw [create_bundle_eq_of_ranges frames audio w h fps sr hf hn hc hs hh hw]
  exact ⟨rfl, by simp [signature]⟩

/-- Claim C2, witness for the amended theorem. -/
theorem c2_header_layout_witness :
    (create_bundle [[0]] [5] 2 3 24 44100).success = true ∧
    (create_bundle [[0]] [5] 2 3 24 44100).out.take 18 =
      signature ++ [1] ++
        [[[0]].length % 256, [[0]].length / 256 % 256,
          [[0]].length / 65536 % 256, [[0]].length / 16777216] ++
        [44100 / 24 % 256, 44100 / 24 / 256] ++
        [44100 % 256, 44100 / 256] ++ [3, 2] :=
  c2_header_layout [[0]] [5] 2 3 24 44100 (by decide) (by decide) (by decide)
    (by decide) (by decide) (by decide)

/-- Claim C3: for every pixel buffer and declared dimensions, the frame
packer produces exactly ⌈width·height/8⌉ bytes regardless of content, and
bit `k` (least significant = 0) of byte `m` is 1 exactly when pixel
`8·m + k` exists in the flat pixel buffer and its intensity is 0 (dark);
bits addressing positions beyond the pixel buffer are 0. -/
theorem c3_frame_packer_bits (pixels : List Nat) (w h : Nat) :
    (packFrame pixels w h).length = (w * h + 7) / 8 ∧
    ∀ m k : Nat,
      Nat.testBit ((packFrame pixels w h).getD m 0) k =
        (decide (m < (w * h + 7) / 8) && decide (k < 8) &&
          decide (8 * m + k < pixels.length) &&
          decide (pixels.getD (8 * m + k) 255 = 0)) :=
  ⟨packFrame_length pixels w h, fun m k => packFrame_testBit pixels w h m k⟩

/-- Claim C4: the concatenation of all audio chunks written equals the audio
buffer truncated to `frame_count * audio_chunk_size` bytes (`take` clamps to
the full buffer when it is shorter); every byte up to that point is written
exactly once and in order, and once the cursor has reached the end of the
buffer every subsequent chunk is empty while frames continue. -/
theorem c4_audio_coverage (frames : List (List Nat)) (audio : List Nat)
    (chunk : Nat) :
    audioWritten frames audio 0 chunk = audio.take (frames.length * chunk) ∧
    ∀ (rest : List (List Nat)) (pos : Nat), audio.length ≤ pos →
      audioWritten rest audio pos chunk = [] := by
  constructor
  · rw [audioWritten_eq]; simp
  · intro rest pos hpos
    rw [audioWritten_eq, List.drop_eq_nil_of_le hpos, List.take_nil]

/-- Claim C4, witness: a two-frame encode over a three-byte audio buffer
with chunk size 2 writes `[1, 2]` then `[3]`, and from an exhausted cursor
every chunk is empty. -/
theorem c4_audio_coverage_witness :
    audioWritten [[0], [0]] [1, 2, 3] 0 2 =
      ([1, 2, 3] : List Nat).take ([[0], [0]].length * 2) ∧
    (([1, 2, 3] : List Nat).length ≤ 5 ∧
      audioWritten [[0], [0]] [1, 2, 3] 5 2 = []) :=
  ⟨(c4_audio_coverage [[0], [0]] [1, 2, 3] 2).1,
    by decide,
    (c4_audio_coverage [[0], [0]] [1, 2, 3] 2).2 [[0], [0]] 5 (by decide)⟩

/-- Claim C5, counterexample: the zero-frame encode produces exactly 18
bytes, not the 17 the claim states. -/
theorem c5_total_length_cex :
    (create_bundle [] [] 128 64 24 44100).out.length = 18 ∧
    (create_bundle [] [] 128 64 24 44100).out.length ≠ 17 := by
  decide

/-- Claim C5, amended: for every successful encode over `n` frames the total
output length is `18 + n * ⌈width·height/8⌉` plus the audio bytes actually
written; with zero frames the output is exactly the 18-byte header. -/
theorem c5_total_length (frames : List (List Nat)) (audio : List Nat)
    (w h fps sr : Nat) (hf : fps ≠ 0) (hn : frames.length < 4294967296)
    (hc : sr / fps < 65536) (hs : sr < 65536) (hh : h < 256) (hw : w < 256) :
    (create_bundle frames audio w h fps sr).out.length =
      18 + frames.length * ((w * h + 7) / 8) +
        (audioWritten frames audio 0 (sr / fps)).length ∧
    (create_bundle [] audio w h fps sr).out.length = 18 := by
  constructor
  · rw [create_bundle_eq_of_ranges frames audio w h fps sr hf hn hc hs hh hw]
    simp [signature, frameChunks_length]
    ring
  · rw [create_bundle_eq_of_ranges [] audio w h fps sr hf (by simp) hc hs hh hw]
    simp [signature, frameChunks]

/-- Claim C5, witness: one frame of 5 declared pixels (1 packed byte) and a
3-byte audio buffer with chunk size 1837. -/
theorem c5_total_length_witness :
    (create_bundle [[0, 0, 0, 0, 0]] [9, 9, 9] 5 1 24 44100).out.length =
      18 + [[0, 0, 0, 0, 0]].length * ((5 * 1 + 7) / 8) +
        (audioWritten [[0, 0, 0, 0, 0]] [9, 9, 9] 0 (44100 / 24)).length ∧
    (create_bundle [] [9, 9, 9] 5 1 24 44100).out.length = 18 :=
  c5_total_length [[0, 0, 0, 0, 0]] [9, 9, 9] 5 1 24 44100 (by decide)
    (by decide) (by decide) (by decide) (by decide) (by decide)

/-- Claim C6, counterexample: a frame whose pixel buffer length (3) differs
from the declared `width*height` (4) is packed without any dimension check —
the missing pixel simply packs as a 0 bit — and the whole encode succeeds;
the code has no `DimensionMismatch` condition. -/
theorem c6_no_dimension_check_cex :
    packFrame [0, 0, 0] 2 2 = [7] ∧
    (create_bundle [[0, 0, 0]] [] 2 2 24 44100).success = true := by
  decide

/-- Claim C6, amended: the packer and the encode never fail on a pixel
buffer whose length differs from `width*height`: the packer always produces
⌈width·height/8⌉ bytes, and whether the encode succeeds is independent of
the frame pixel buffers. -/
theorem c6_success_ignores_pixels (frames : List (List Nat))
    (audio : List Nat) (w h fps sr : Nat) (hf : fps ≠ 0)
    (hn : frames.length < 4294967296) (hc : sr / fps < 65536) (hs : sr < 65536)
    (hh : h < 256) (hw : w < 256) :
    (create_bundle frames audio w h fps sr).success = true ∧
    ∀ pixels : List Nat, (packFrame pixels w h).length = (w * h + 7) / 8 :=
  ⟨(create_bundle_success_iff frames audio w h fps sr).mpr
      ⟨hf, hn, hc, hs, hh, hw⟩,
    fun pixels => packFrame_length pixels w h⟩

/-- Claim C6, witness: an encode whose only frame has 3 pixels against
declared dimensions 2×2 succeeds. -/
theorem c6_success_ignores_pixels_witness :
    (create_bundle [[0, 0, 0]] [7] 2 2 24 44100).success = true ∧
    ∀ pixels : List Nat, (packFrame pixels 2 2).length = (2 * 2 + 7) / 8 :=
  c6_success_ignores_pixels [[0, 0, 0]] [7] 2 2 24 44100 (by decide)
    (by decide) (by decide) (by decide) (by decide) (by decide)

/-- Claim C7, counterexample: with `fps = 1` and `sample_rate = 70000` the
derived chunk size 70000 overflows the 16-bit field and the encode fails —
but only after the 12 bytes of signature, version and frame count have
already been written, so the failure is not "before any bytes are
written". -/
theorem c7_chunk_overflow_cex :
    (create_bundle [] [] 10 10 1 70000).success = false ∧
    (create_bundle [] [] 10 10 1 70000).out ≠ [] ∧
    (create_bundle [] [] 10 10 1 70000).out.length = 12 := by
  decide

/-- Claim C7, amended: when the derived chunk size exceeds 65535, the encode
fails, with exactly the 12 already-written header bytes (signature, version,
frame count) in the output. -/
theorem c7_chunk_overflow_partial (frames : List (List Nat))
    (audio : List Nat) (w h fps sr : Nat) (hf : fps ≠ 0)
    (hn : frames.length < 4294967296) (hc : 65535 < sr / fps) :
    (create_bundle frames audio w h fps sr).success = false ∧
    (create_bundle frames audio w h fps sr).out =
      signature ++ [1] ++
        [frames.length % 256, frames.length / 256 % 256,
          frames.length / 65536 % 256, frames.length / 16777216] := by
  rw [create_bundle_chunk_overflow frames audio w h fps sr hf hn hc]
  exact ⟨rfl, rfl⟩

/-- Claim C7, witness at `fps = 1`, `sample_rate = 70000`. -/
theorem c7_chunk_overflow_partial_witness :
    (create_bundle [] [] 10 10 1 70000).success = false ∧
    (create_bundle [] [] 10 10 1 70000).out =
      [66, 78, 68, 33, 86, 73, 68, 1, 0, 0, 0, 0] := by
  have h := c7_chunk_overflow_partial [] [] 10 10 1 70000 (by decide)
    (by decide) (by decide)
  exact ⟨h.1, h.2.trans (by decide)⟩

/-- Claim C8, counterexample: a width of 300 is not rejected by validation
at the API boundary — the encode does fail (no silent truncation), but only
while writing the header, after 17 bytes are already in the output. -/
theorem c8_dims_cex :
    (create_bundle [] [] 300 64 24 44100).success = false ∧
    (create_bundle [] [] 300 64 24 44100).out ≠ [] ∧
    (create_bundle [] [] 300 64 24 44100).out.length = 17 := by
  decide

/-- Claim C8, amended: dimensions above 255 make the encode fail (they are
never truncated into the 8-bit fields), but the failure happens while
writing the header rather than by upfront validation: with `height > 255`
the output is the first 16 header bytes, and with `height ≤ 255 < width` it
is those 16 bytes plus the height byte. -/
theorem c8_dims_fail_mid_header (frames : List (List Nat)) (audio : List Nat)
    (w h fps sr : Nat) (hf : fps ≠ 0) (hn : frames.length < 4294967296)
    (hc : sr / fps < 65536) (hs : sr < 65536) :
    (255 < h →
      create_bundle frames audio w h fps sr =
        ⟨false,
          signature ++ [1] ++
            [frames.length % 256, frames.length / 256 % 256,
              frames.length / 65536 % 256, frames.length / 16777216] ++
            [sr / fps % 256, sr / fps / 256] ++ [sr % 256, sr / 256]⟩) ∧
    (h < 256 → 255 < w →
      create_bundle frames audio w h fps sr =
        ⟨false,
          signature ++ [1] ++
            [frames.length % 256, frames.length / 256 % 256,
              frames.length / 65536 % 256, frames.length / 16777216] ++
            [sr / fps % 256, sr / fps / 256] ++ [sr % 256, sr / 256] ++
            [h]⟩) :=
  ⟨fun hh => create_bundle_height_overflow frames audio w h fps sr hf hn hc hs hh,
    fun hh hw => create_bundle_width_overflow frames audio w h fps sr hf hn hc hs hh hw⟩

/-- Claim C8, witness: height 300 fails after 16 bytes; width 300 with
height 64 fails after 17 bytes. -/
theorem c8_dims_fail_mid_header_witness :
    create_bundle [] [] 10 300 24 44100 =
      ⟨false, [66, 78, 68, 33, 86, 73, 68, 1, 0, 0, 0, 0, 45, 7, 68, 172]⟩ ∧
    create_bundle [] [] 300 64 24 44100 =
      ⟨false,
        [66, 78, 68, 33, 86, 73, 68, 1, 0, 0, 0, 0, 45, 7, 68, 172, 64]⟩ := by
  have h1 := (c8_dims_fail_mid_header [] [] 10 300 24 44100 (by decide)
    (by decide) (by decide) (by decide)).1 (by decide)
  have h2 := (c8_dims_fail_mid_header [] [] 300 64 24 44100 (by decide)
    (by decide) (by decide) (by decide)).2 (by decide) (by decide)
  exact ⟨h1.trans (by decide), h2.trans (by decide)⟩

/-- Claim C9: for any pixel buffer of the declared size `width*height`,
unpacking its packed frame by inverting the packing rule (bit `k` of byte
`m` gives pixel `8·m + k`, set bit meaning dark/0) and re-packing the
resulting buffer reproduces the packed bytes exactly. -/
theorem c9_pack_unpack_roundtrip (pixels : List Nat) (w h : Nat)
    (hlen : pixels.length = w * h) :
    packFrame (unpackFrame (packFrame pixels w h) w h) w h =
      packFrame pixels w h := by
  apply List.ext_getElem?
  intro m
  by_cases hm : m < (w * h + 7) / 8
  · have h1 : m < (packFrame (unpackFrame (packFrame pixels w h) w h) w h).length := by
      rw [packFrame_length]; exact hm
    have h2 : m < (packFrame pixels w h).length := by
      rw [packFrame_length]; exact hm
    rw [List.getElem?_eq_getElem h1, List.getElem?_eq_getElem h2]
    have hbyte :
        (packFrame (unpackFrame (packFrame pixels w h) w h) w h).getD m 0 =
          (packFrame pixels w h).getD m 0 := by
      apply Nat.eq_of_testBit_eq
      intro k
      rw [packFrame_testBit, packFrame_testBit]
      by_cases hk : k < 8
      · have hup_len := unpackFrame_length (packFrame pixels w h) w h
        by_cases hin : 8 * m + k < w * h
        · have hin' : 8 * m + k < pixels.length := by omega
          have hinu : 8 * m + k < (unpackFrame (packFrame pixels w h) w h).length := by
            omega
          have hupx := unpackFrame_getD (packFrame pixels w h) w h (8 * m + k) hin
          have hdiv : (8 * m + k) / 8 = m := by omega
          have hmod : (8 * m + k) % 8 = k := by omega
          rw [hdiv, hmod, packFrame_testBit] at hupx
          simp only [hm, hk, hin', decide_True, Bool.true_and,
            decide_eq_true_eq] at hupx
          have hliff :
              8 * m + k < (unpackFrame (packFrame pixels w h) w h).length ↔
                8 * m + k < pixels.length := by omega
          have hviff :
              (unpackFrame (packFrame pixels w h) w h).getD (8 * m + k) 255 = 0 ↔
                pixels.getD (8 * m + k) 255 = 0 := by
            rw [hupx]
            by_cases hpx : pixels.getD (8 * m + k) 255 = 0 <;> simp [hpx]
          rw [decide_eq_decide.mpr hliff, decide_eq_decide.mpr hviff]
        · have hn1 : ¬ 8 * m + k < (unpackFrame (packFrame pixels w h) w h).length := by
            omega
          have hn2 : ¬ 8 * m + k < pixels.length := by omega
          simp [hn1, hn2]
      · simp [hk]
    rw [getD_of_lt _ 0 m h1, getD_of_lt _ 0 m h2] at hbyte
    simpa using hbyte
  · have h1 : (packFrame (unpackFrame (packFrame pixels w h) w h) w h).length ≤ m := by
      rw [packFrame_length]; omega
    have h2 : (packFrame pixels w h).length ≤ m := by
      rw [packFrame_length]; omega
    rw [List.getElem?_eq_none h1, List.getElem?_eq_none h2]

/-- Claim C9, witness: a 5×1 frame with pixels `[0, 255, 0, 255, 255]`. -/
theorem c9_pack_unpack_roundtrip_witness :
    ([0, 255, 0, 255, 255] : List Nat).length = 5 * 1 ∧
    packFrame (unpackFrame (packFrame [0, 255, 0, 255, 255] 5 1) 5 1) 5 1 =
      packFrame [0, 255, 0, 255, 255] 5 1 :=
  ⟨by decide, c9_pack_unpack_roundtrip [0, 255, 0, 255, 255] 5 1 (by decide)⟩

/-- Claim C10: an encode with `sample_rate > 65535` always fails (the
`struct.pack('<H', sample_rate)` — or, for small `fps`, the chunk-size pack
before it — raises, the exception handler returns `False`, and no complete
bundle is produced); and whenever an encode succeeds the sample rate fit in
16 bits and is stored exactly, little-endian, at header bytes 14–15. -/
theorem c10_sample_rate_16bit (frames : List (List Nat)) (audio : List Nat)
    (w h fps sr : Nat) :
    (65535 < sr → (create_bundle frames audio w h fps sr).success = false) ∧
    ((create_bundle frames audio w h fps sr).success = true →
      sr < 65536 ∧
        ((create_bundle frames audio w h fps sr).out.drop 14).take 2 =
          [sr % 256, sr / 256]) := by
  constructor
  · intro hsr
    cases hsucc : (create_bundle frames audio w h fps sr).success
    · rfl
    · obtain ⟨hf, hn, hc, hs, hh, hw⟩ :=
        (create_bundle_success_iff frames audio w h fps sr).mp hsucc
      omega
  · intro hsucc
    obtain ⟨hf, hn, hc, hs, hh, hw⟩ :=
      (create_bundle_success_iff frames audio w h fps sr).mp hsucc
    refine ⟨hs, ?_⟩
    rw [create_bundle_eq_of_ranges frames audio w h fps sr hf hn hc hs hh hw]
    simp [signature]

/-- Claim C10, witness: `sample_rate = 70000` fails; `sample_rate = 44100`
succeeds and is stored as `[68, 172]`. -/
theorem c10_sample_rate_16bit_witness :
    (create_bundle [] [] 2 2 24 70000).success = false ∧
    (44100 < 65536 ∧
      ((create_bundle [] [] 2 2 24 44100).out.drop 14).take 2 =
        [44100 % 256, 44100 / 256]) :=
  ⟨(c10_sample_rate_16bit [] [] 2 2 24 70000).1 (by decide),
    (c10_sample_rate_16bit [] [] 2 2 24 44100).2 (by decide)⟩

end Claims

end FlipEnt
